import Mathlib

/-!
Verification of the Link2Ink client core: the stage-progress mapper and
progress animator of `LoadingState`, the decorative log simulator, the
persisted history stores of `App`, the keyboard-shortcut dispatcher, and
the article-generation handler. Each definition is a shallow embedding of
the corresponding TypeScript source; JavaScript numbers are modelled as
rationals, random samples and wall-clock times are passed as explicit
inputs, and exceptions are modelled with `Except` / explicit flags.
-/

namespace Link2Ink

/-! ## String utilities

JavaScript `String.prototype.includes` and `String.prototype.toLowerCase`
(the stage messages in question are ASCII), modelled on the character
lists underlying Lean strings. -/

/-- `beginsWith needle hay` : does `hay` start with `needle`? -/
def beginsWith : List Char → List Char → Bool
  | [], _ => true
  | _ :: _, [] => false
  | a :: as, b :: bs => a == b && beginsWith as bs

/-- `containsSub hay needle` : does `needle` occur contiguously in `hay`?
Mirrors JavaScript `hay.includes(needle)`. -/
def containsSub : List Char → List Char → Bool
  | [], needle => needle.isEmpty
  | c :: cs, needle => beginsWith needle (c :: cs) || containsSub cs needle

/-- JavaScript `s.includes(sub)`. -/
def strIncludes (s sub : String) : Bool :=
  containsSub s.data sub.data

/-- JavaScript `s.toLowerCase()` on ASCII text. -/
def lowerString (s : String) : String :=
  String.mk (s.data.map Char.toLower)

/-! ## StageProgressMapper

`LoadingState` (Smart Progress Logic useEffect): on each new `message`,
lower-case it and update the target-progress ref through three ordered
keyword buckets; an unmatched message leaves the ref unchanged. -/

/-- One update of `targetProgress.current` for a stage `message`, given the
previous target `prev`. Direct embedding of the `useEffect` body. -/
def stepTarget (prev : ℕ) (message : String) : ℕ :=
  let lowerMsg := lowerString message
  if strIncludes lowerMsg "connect" || strIncludes lowerMsg "fetch" ||
     strIncludes lowerMsg "read" || strIncludes lowerMsg "init" then 35
  else if strIncludes lowerMsg "analyz" || strIncludes lowerMsg "research" ||
     strIncludes lowerMsg "pars" || strIncludes lowerMsg "struct" then 70
  else if strIncludes lowerMsg "generat" || strIncludes lowerMsg "render" ||
     strIncludes lowerMsg "design" || strIncludes lowerMsg "transform" then 98
  else prev

/-- The sequence of targets produced by feeding a list of stage messages
one by one, starting from target `t0`. -/
def runTargets (t0 : ℕ) : List String → List ℕ
  | [] => []
  | m :: ms =>
    let t := stepTarget t0 m
    t :: runTargets t ms

/-- Modelled from the spec's words (§4.1): the independent per-message
bucket classification — `some tier` when a bucket matches, `none` when the
message is unmatched. -/
def bucketClassify (message : String) : Option ℕ :=
  let lowerMsg := lowerString message
  if strIncludes lowerMsg "connect" || strIncludes lowerMsg "fetch" ||
     strIncludes lowerMsg "read" || strIncludes lowerMsg "init" then some 35
  else if strIncludes lowerMsg "analyz" || strIncludes lowerMsg "research" ||
     strIncludes lowerMsg "pars" || strIncludes lowerMsg "struct" then some 70
  else if strIncludes lowerMsg "generat" || strIncludes lowerMsg "render" ||
     strIncludes lowerMsg "design" || strIncludes lowerMsg "transform" then some 98
  else none

/-- Modelled from the spec's words (§8): per-message classification with
retention of the previous target on an unmatched message. -/
def classifyRun (t0 : ℕ) : List String → List ℕ
  | [] => []
  | m :: ms =>
    let t := match bucketClassify m with
      | some v => v
      | none => t0
    t :: classifyRun t ms

/-! ## ProgressAnimator initial values

`LoadingState`: `const [progress, setProgress] = useState(0)` and
`const targetProgress = useRef(10)`. -/

/-- Initial displayed progress value (`useState(0)`). -/
def progressInit : ℚ := 0

/-- Initial target progress value (`useRef(10)`). -/
def targetProgressInit : ℚ := 10

/-! ## ProgressAnimator tick

`LoadingState` (Smooth Progress Animation useEffect): every 30 ms,
`diff = targetProgress.current - prev`; if `|diff| < 0.5` the value is
left unchanged, otherwise `prev + diff * 0.05`. -/

/-- One animation tick of the displayed progress toward `target`. -/
def tick (target current : ℚ) : ℚ :=
  if |target - current| < 1 / 2 then current
  else current + (target - current) * (5 / 100)

/-- `n` ticks with a fixed target. -/
def iterTick (target c : ℚ) : ℕ → ℚ
  | 0 => c
  | n + 1 => tick target (iterTick target c n)

/-- Displayed value after `n` ticks when the target may change between
ticks: tick `n` uses target `targets n`. -/
def iterTickSeq (targets : ℕ → ℚ) (c : ℚ) : ℕ → ℚ
  | 0 => c
  | n + 1 => tick (targets n) (iterTickSeq targets c n)

/-! ## LogStream

`LoadingState` (Log Simulator useEffect): the window is seeded with one
untimestamped line, then every 600 ms a tick draws `Math.random()`; if it
exceeds 0.7 the window is unchanged, otherwise a second uniform draw picks
one line from `config.tasks`, the line is stamped with the current time
and appended, and the window is trimmed to its last 5 entries. A rendered
log line `"[${timestamp}] ${task} ... OK"` is modelled as a record of its
timestamp part and its text part; the seed line has no timestamp. -/

/-- One line of the rolling log window. -/
structure LogEntry where
  ts : Option ℕ
  text : String
deriving DecidableEq

/-- The window set on mount: `` setLogs([`> initializing ${config.logPrefix}_module...`]) ``. -/
def initLogs (modulePfx : String) : List LogEntry :=
  [⟨none, "> initializing " ++ modulePfx ++ "_module..."⟩]

/-- `config.tasks` for `type = 'article'`. -/
def articleTasks : List String :=
  ["Resolving DNS headers...",
   "Scraping DOM structure...",
   "Extracting semantic entities...",
   "Analyzing content density...",
   "Synthesizing visual metaphors...",
   "Determining optimal layout...",
   "Rasterizing vector layers...",
   "Applying style transfer...",
   "Generating final composite..."]

/-- `config.tasks` for `type = 'repo'`. -/
def repoTasks : List String :=
  ["Fetching remote tree object...",
   "Parsing Abstract Syntax Tree...",
   "Mapping dependency graph...",
   "Identifying structural hotspots...",
   "Vectorizing node positions...",
   "Calculating force-directed layout...",
   "Optimizing render pipeline...",
   "Compiling WebGL assets...",
   "Finalizing lightmap bake..."]

/-- The entry built by an appending tick: the pool line picked by
`tasks[Math.floor(r2 * tasks.length)]`, suffixed `" ... OK"` and stamped
with the current time. -/
def logEntryOf (r2 : ℚ) (now : ℕ) (tasks : List String) : LogEntry :=
  ⟨some now, tasks.getD (Int.toNat (Int.floor (r2 * (tasks.length : ℚ)))) "" ++ " ... OK"⟩

/-- One tick of the log simulator. `r1` is the first `Math.random()`
sample (skip guard), `r2` the second (pool index), `now` the current
time. -/
def logTick (r1 r2 : ℚ) (now : ℕ) (tasks : List String) (prev : List LogEntry) : List LogEntry :=
  if r1 > 7 / 10 then prev
  else
    let newLogs := prev ++ [logEntryOf r2 now tasks]
    if newLogs.length > 5 then newLogs.drop (newLogs.length - 5) else newLogs

/-- Fold a list of tick inputs `(r1, r2, now)` over a starting window. -/
def foldTicks (tasks : List String) (ticksIn : List (ℚ × ℚ × ℕ)) (w : List LogEntry) :
    List LogEntry :=
  ticksIn.foldl (fun acc t => logTick t.1 t.2.1 t.2.2 tasks acc) w

/-- The window after running the given tick inputs from the mount state. -/
def runLogs (tasks : List String) (modulePfx : String) (ticksIn : List (ℚ × ℚ × ℕ)) :
    List LogEntry :=
  foldTicks tasks ticksIn (initLogs modulePfx)

/-- The timestamps present in a window are in non-decreasing order. -/
def tsSorted (w : List LogEntry) : Prop :=
  List.Pairwise (fun a b => a ≤ b) (w.filterMap LogEntry.ts)

/-- Invariant of a log window at time `now`: at most 5 entries, sorted
timestamps, and every timestamp at most `now`. -/
def windowInv (now : ℕ) (w : List LogEntry) : Prop :=
  w.length ≤ 5 ∧ tsSorted w ∧ ∀ t ∈ w.filterMap LogEntry.ts, t ≤ now

/-! ## HistoryStore

`App` holds the article (and repo) history lists; appending prepends the
new item, a `useEffect` persists the whole list to `localStorage` inside
`try`/`catch`, and a lazy initializer reads it back, reviving each
record's `date` with `new Date(item.date)` and falling back to `[]` on
any failure. Storage reads/writes that may throw are modelled with
`Except`; the boolean paired with a result records whether an exception
escaped to the caller. `JSON.parse`, `JSON.stringify` and `new Date` are
external and passed as function parameters. -/

/-- A grounding citation (`types.ts` `Citation`). -/
structure Citation where
  uri : String
  title : Option String
deriving DecidableEq

/-- An article-history record with its `date` revived to a temporal value
(milliseconds). -/
structure ArticleHistoryItem where
  id : String
  title : String
  url : String
  images : List String
  citations : List Citation
  date : ℤ
deriving DecidableEq

/-- An article-history record as parsed from storage, `date` still the
serialized string. -/
structure RawArticleItem where
  id : String
  title : String
  url : String
  images : List String
  citations : List Citation
  date : String
deriving DecidableEq

/-- `{...item, date: new Date(item.date)}`. -/
def reviveItem (newDate : String → ℤ) (it : RawArticleItem) : ArticleHistoryItem :=
  ⟨it.id, it.title, it.url, it.images, it.citations, newDate it.date⟩

/-- `App`'s lazy initializer for the article history: read the stored
string, and when it is present and truthy, parse it and revive each date;
every failure path is caught and yields `[]`. The second component
records whether an exception escaped (`true` never occurs: the body is
wrapped in `try`/`catch`). -/
def loadHistory (read : Except String (Option String))
    (parse : String → Except String (List RawArticleItem))
    (newDate : String → ℤ) : List ArticleHistoryItem × Bool :=
  match read with
  | .error _ => ([], false)
  | .ok none => ([], false)
  | .ok (some saved) =>
    if saved = "" then ([], false)
    else
      match parse saved with
      | .error _ => ([], false)
      | .ok raw => (raw.map (reviveItem newDate), false)

/-- `handleAddArticleHistory`: `setArticleHistory(prev => [item, ...prev])`. -/
def handleAddArticleHistory (item : ArticleHistoryItem)
    (prev : List ArticleHistoryItem) : List ArticleHistoryItem :=
  item :: prev

/-- The storage backend's view of the article-history key. -/
structure StorageState where
  articleKey : Option String
deriving DecidableEq

/-- Whether the backend accepts the next write. -/
inductive WriteOutcome
  | accepted
  | quotaExceeded
deriving DecidableEq

/-- `localStorage.setItem`, which may throw (e.g. quota exceeded). -/
def setItemResult (outcome : WriteOutcome) (st : StorageState) (v : String) :
    Except String StorageState :=
  match outcome with
  | .accepted => .ok { st with articleKey := some v }
  | .quotaExceeded => .error "QuotaExceededError"

/-- The persist `useEffect`: serialize the list and write it inside
`try`/`catch`; on failure, warn and keep going. The boolean records
whether an exception escaped. -/
def persistArticleHistory (outcome : WriteOutcome) (st : StorageState)
    (ser : List ArticleHistoryItem → String) (hist : List ArticleHistoryItem) :
    StorageState × Bool :=
  match setItemResult outcome st (ser hist) with
  | .ok st2 => (st2, false)
  | .error _ => (st, false)

/-! ## ViewRouter + shortcut dispatcher

`App` (Global Keyboard Shortcuts useEffect): on key-down, return early
while there is no API key or the intro overlay is showing; otherwise, on
Alt with no other modifier, digits 1–3 call `preventDefault` and switch
the view. The boolean in the result records whether `preventDefault` was
called (the event was consumed). -/

/-- The view enumeration (`types.ts` `ViewMode`). -/
inductive ViewMode
  | HOME
  | REPO_ANALYZER
  | ARTICLE_INFOGRAPHIC
deriving DecidableEq

/-- The fields of a `KeyboardEvent` the dispatcher reads. -/
structure KeyEvent where
  altKey : Bool
  ctrlKey : Bool
  metaKey : Bool
  shiftKey : Bool
  key : String
deriving DecidableEq

/-- `handleKeyDown`, returning the resulting view and whether
`preventDefault` was called. -/
def handleKeyDown (hasApiKey showIntro : Bool) (view : ViewMode) (e : KeyEvent) :
    ViewMode × Bool :=
  if !hasApiKey || showIntro then (view, false)
  else if e.altKey && !e.ctrlKey && !e.metaKey && !e.shiftKey then
    if e.key = "1" then (ViewMode.HOME, true)
    else if e.key = "2" then (ViewMode.REPO_ANALYZER, true)
    else if e.key = "3" then (ViewMode.ARTICLE_INFOGRAPHIC, true)
    else (view, false)
  else (view, false)

/-- The digit-to-view table realized by the `switch`. -/
def shortcutTable (key : String) : Option ViewMode :=
  if key = "1" then some ViewMode.HOME
  else if key = "2" then some ViewMode.REPO_ANALYZER
  else if key = "3" then some ViewMode.ARTICLE_INFOGRAPHIC
  else none

/-! ## Article generation handler

`ArticleToInfographic.handleGenerate` and `addToHistory`. The Generation
Service call is an external collaborator: its outcome is passed in as an
`Except` value. `new URL(url).hostname`, which may throw, is passed as an
`Option`-valued function; `Date.now().toString()` and `new Date()` are
passed as `idStr` and `now`. -/

/-- JavaScript `String.prototype.trim` on the underlying characters. -/
def trimStr (s : String) : String :=
  String.mk (((s.data.dropWhile Char.isWhitespace).reverse.dropWhile
    Char.isWhitespace).reverse)

/-- The payload resolved by `generateArticleInfographic`: the image list
may be absent. -/
structure GenPayload where
  images : Option (List String)
  citations : List Citation
deriving DecidableEq

/-- The component state touched by `handleGenerate`. -/
structure GenUiState where
  loading : Bool
  images : List String
  citations : List Citation
  error : Option String
  loadingStage : String
deriving DecidableEq

/-- `addToHistory`: derive a title from the URL's hostname (falling back
to the URL itself when `new URL` throws) and prepend the new item. -/
def addToHistory (hostnameOf : String → Option String) (idStr : String) (now : ℤ)
    (url : String) (imgs : List String) (cites : List Citation)
    (hist : List ArticleHistoryItem) : List ArticleHistoryItem :=
  let title := match hostnameOf url with
    | some h => h
    | none => url
  handleAddArticleHistory ⟨idStr, title, url, imgs, cites, now⟩ hist

/-- `handleGenerate`: validate the URL, clear result state, dispatch the
service call, and on success with a non-empty image list display the
result and append it to the history; an empty or missing image list is
thrown and caught as a failure. Returns the final UI state and history. -/
def handleGenerate (s : GenUiState) (hist : List ArticleHistoryItem)
    (urlInput : String) (result : Except String GenPayload)
    (hostnameOf : String → Option String) (idStr : String) (now : ℤ) :
    GenUiState × List ArticleHistoryItem :=
  if trimStr urlInput = "" then
    ({ s with error := some "Please provide a valid URL." }, hist)
  else
    let s1 : GenUiState :=
      { s with loading := true, error := none, images := [], citations := [],
               loadingStage := "INITIALIZING..." }
    match result with
    | .ok payload =>
      match payload.images with
      | some imgs =>
        if imgs.length > 0 then
          ({ s1 with images := imgs, citations := payload.citations,
                     loading := false, loadingStage := "" },
           addToHistory hostnameOf idStr now urlInput imgs payload.citations hist)
        else
          ({ s1 with
               error := some "Failed to generate infographic image. The URL might be inaccessible.",
               loading := false, loadingStage := "" }, hist)
      | none =>
        ({ s1 with
             error := some "Failed to generate infographic image. The URL might be inaccessible.",
             loading := false, loadingStage := "" }, hist)
    | .error msg =>
      ({ s1 with
           error := some (if msg = "" then "An unexpected error occurred." else msg),
           loading := false, loadingStage := "" }, hist)

end Link2Ink

namespace Link2Ink

/-- Relate a single target update to the per-message classification. -/
theorem stepTarget_eq_classify (t : ℕ) (m : String) :
    stepTarget t m = match bucketClassify m with
      | some v => v
      | none => t := by
  unfold stepTarget bucketClassify
  by_cases h1 : (strIncludes (lowerString m) "connect" ||
      strIncludes (lowerString m) "fetch" || strIncludes (lowerString m) "read" ||
      strIncludes (lowerString m) "init") = true
  · simp [h1]
  · by_cases h2 : (strIncludes (lowerString m) "analyz" ||
        strIncludes (lowerString m) "research" || strIncludes (lowerString m) "pars" ||
        strIncludes (lowerString m) "struct") = true
    · simp [h1, h2]
    · by_cases h3 : (strIncludes (lowerString m) "generat" ||
          strIncludes (lowerString m) "render" || strIncludes (lowerString m) "design" ||
          strIncludes (lowerString m) "transform") = true
      · simp [h1, h2, h3]
      · simp [h1, h2, h3]

/-- When the displayed value is not yet settled, one tick multiplies the
remaining distance to the target by 19/20. -/
theorem tick_decay (T c : ℚ) (h : ¬ |T - c| < 1 / 2) :
    T - tick T c = (T - c) * (19 / 20) := by
  unfold tick
  rw [if_neg h]
  ring

/-- A settled value is left unchanged by a tick. -/
theorem tick_settled (T c : ℚ) (h : |T - c| < 1 / 2) : tick T c = c := by
  unfold tick
  rw [if_pos h]

/-- One tick never increases the distance to the target. -/
theorem tick_dist_le (T c : ℚ) : |T - tick T c| ≤ |T - c| := by
  by_cases h : |T - c| < 1 / 2
  · rw [tick_settled T c h]
  · rw [tick_decay T c h, abs_mul]
    have h19 : |(19 / 20 : ℚ)| = 19 / 20 := by norm_num
    rw [h19]
    nlinarith [abs_nonneg (T - c)]

/-- A tick from below the target moves the value up but not past it. -/
theorem tick_mono_below (T c : ℚ) (h : c ≤ T) : c ≤ tick T c ∧ tick T c ≤ T := by
  by_cases hs : |T - c| < 1 / 2
  · rw [tick_settled T c hs]
    exact ⟨le_refl c, h⟩
  · unfold tick
    rw [if_neg hs]
    constructor <;> nlinarith

/-- A tick from above the target moves the value down but not past it. -/
theorem tick_mono_above (T c : ℚ) (h : T ≤ c) : tick T c ≤ c ∧ T ≤ tick T c := by
  by_cases hs : |T - c| < 1 / 2
  · rw [tick_settled T c hs]
    exact ⟨le_refl c, h⟩
  · unfold tick
    rw [if_neg hs]
    constructor <;> nlinarith

/-- After `n` ticks, the value is settled or the distance has shrunk by
the factor `(19/20)^n`. -/
theorem iterTick_dist (T c : ℚ) :
    ∀ n, |T - iterTick T c n| < 1 / 2 ∨
      |T - iterTick T c n| = (19 / 20) ^ n * |T - c| := by
  intro n
  induction n with
  | zero =>
    right
    simp [iterTick]
  | succ n ih =>
    by_cases hs : |T - iterTick T c n| < 1 / 2
    · left
      show |T - tick T (iterTick T c n)| < 1 / 2
      rw [tick_settled T _ hs]
      exact hs
    · rcases ih with h | h
      · exact absurd h hs
      · right
        show |T - tick T (iterTick T c n)| = _
        rw [tick_decay T _ hs, abs_mul, h]
        have h19 : |(19 / 20 : ℚ)| = 19 / 20 := by norm_num
        rw [h19, pow_succ]
        ring

/-- From any start, the value reaches the 0.5-neighborhood of the target
after finitely many ticks. -/
theorem exists_settle (T c : ℚ) : ∃ n, |T - iterTick T c n| < 1 / 2 := by
  by_cases h0 : |T - c| < 1 / 2
  · exact ⟨0, h0⟩
  · have hd : (0 : ℚ) < |T - c| := by
      have := abs_nonneg (T - c)
      rcases lt_or_eq_of_le this with h | h
      · exact h
      · exact absurd (by rw [← h]; norm_num) h0
    have hx : (0 : ℚ) < 1 / (2 * |T - c|) := by positivity
    obtain ⟨n, hn⟩ := exists_pow_lt_of_lt_one hx (by norm_num : (19 / 20 : ℚ) < 1)
    refine ⟨n, ?_⟩
    rcases iterTick_dist T c n with h | h
    · exact h
    · rw [h]
      have := mul_lt_mul_of_pos_right hn hd
      have heq : 1 / (2 * |T - c|) * |T - c| = 1 / 2 := by
        field_simp
        ring
      rw [heq] at this
      exact this

/-- With a non-decreasing target sequence and a start at or below the
first target, the displayed value never passes the current target. -/
theorem iterTickSeq_no_overshoot (targets : ℕ → ℚ) (c : ℚ)
    (hmono : ∀ n, targets n ≤ targets (n + 1)) (h0 : c ≤ targets 0) :
    ∀ n, iterTickSeq targets c n ≤ targets n := by
  intro n
  induction n with
  | zero => exact h0
  | succ n ih =>
    have h1 : tick (targets n) (iterTickSeq targets c n) ≤ targets n :=
      (tick_mono_below (targets n) _ ih).2
    exact le_trans h1 (hmono n)

/-- C2: for every fixed target and starting value, a tick never increases
the distance to the target, moves the value weakly toward the target
without crossing it, the value reaches the 0.5-neighborhood of the target
after finitely many ticks, and with a non-decreasing target sequence the
displayed value never moves past the current target. -/
theorem progress_tick_converges :
    (∀ T c : ℚ, |T - tick T c| ≤ |T - c|) ∧
    (∀ T c : ℚ, c ≤ T → c ≤ tick T c ∧ tick T c ≤ T) ∧
    (∀ T c : ℚ, T ≤ c → tick T c ≤ c ∧ T ≤ tick T c) ∧
    (∀ T c : ℚ, ∃ n, |T - iterTick T c n| < 1 / 2) ∧
    (∀ (targets : ℕ → ℚ) (c : ℚ), (∀ n, targets n ≤ targets (n + 1)) →
      c ≤ targets 0 → ∀ n, iterTickSeq targets c n ≤ targets n) :=
  ⟨tick_dist_le, tick_mono_below, tick_mono_above, exists_settle,
   iterTickSeq_no_overshoot⟩

/-- Witness for the progress animation claim at the concrete target 35
from start 10 (and 10 from start 98 for the downward direction). -/
theorem progress_tick_converges_witness :
    |(35 : ℚ) - tick 35 10| ≤ |(35 : ℚ) - 10| ∧
    ((10 : ℚ) ≤ tick 35 10 ∧ tick 35 10 ≤ 35) ∧
    (tick 10 98 ≤ 98 ∧ (10 : ℚ) ≤ tick 10 98) ∧
    (∃ n, |(35 : ℚ) - iterTick 35 10 n| < 1 / 2) ∧
    iterTickSeq (fun _ => (35 : ℚ)) 10 3 ≤ 35 :=
  ⟨progress_tick_converges.1 35 10,
   progress_tick_converges.2.1 35 10 (by norm_num),
   progress_tick_converges.2.2.1 10 98 (by norm_num),
   progress_tick_converges.2.2.2.1 35 10,
   progress_tick_converges.2.2.2.2 (fun _ => (35 : ℚ)) 10
     (fun _ => le_refl _) (by norm_num) 3⟩

/-- C1: for every sequence of stage messages, the target sequence produced
by the code's sequential update equals the spec's independent per-message
bucket classification with retention on unmatched messages; and a message
matching the first bucket sets the target to 35 regardless of the previous
target, so a later message matching an earlier bucket moves the target
down. -/
theorem stage_targets_eq_bucket_classification (t0 : ℕ) (msgs : List String) :
    runTargets t0 msgs = classifyRun t0 msgs ∧
    (∀ t m, bucketClassify m = some 35 → stepTarget t m = 35) := by
  constructor
  · induction msgs generalizing t0 with
    | nil => rfl
    | cons m ms ih =>
      unfold runTargets classifyRun
      rw [stepTarget_eq_classify]
      exact congrArg _ (ih _)
  · intro t m hm
    rw [stepTarget_eq_classify, hm]

/-- Witness for the classification claim at a concrete downgrade: after
target 98, the message "Fetching page" (bucket 1) moves the target to 35. -/
theorem stage_targets_eq_bucket_classification_witness :
    bucketClassify "Fetching page" = some 35 ∧ stepTarget 98 "Fetching page" = 35 :=
  ⟨by decide, (stage_targets_eq_bucket_classification 98 []).2 98 "Fetching page" (by decide)⟩

/-- C3 counterexample: the displayed progress value is initialized to 0,
not 10 — the first rendered displayed value is 0. -/
theorem progress_init_not_ten :
    ¬ (progressInit = 10 ∧ targetProgressInit = 10) := by
  intro h
  exact absurd h.1 (by decide)

/-- C3 amended: at the start of a task the animator initializes the
displayed value to 0 and the target value to 10. -/
theorem progress_init_values :
    progressInit = 0 ∧ targetProgressInit = 10 := by
  constructor <;> rfl

/-- C4 counterexample: the stage sequence of the spec's scenario does not
produce [10, 35, 70, 98] — "INITIALIZING" contains "init" and therefore
sets the target to 35 rather than leaving it at 10. -/
theorem initializing_stage_cex :
    runTargets 10 ["INITIALIZING", "Fetching page", "Analyzing structure",
      "Generating image"] ≠ [10, 35, 70, 98] ∧
    stepTarget 10 "INITIALIZING" = 35 := by
  constructor <;> decide

/-- C4 amended: the stage sequence ["INITIALIZING", "Fetching page",
"Analyzing structure", "Generating image"] from baseline 10 yields the
target sequence [35, 35, 70, 98]. -/
theorem initializing_stage_run :
    runTargets 10 ["INITIALIZING", "Fetching page", "Analyzing structure",
      "Generating image"] = [35, 35, 70, 98] := by
  decide

/-- The window invariant is preserved when the time bound is relaxed. -/
theorem windowInv_mono {t t' : ℕ} (h : t ≤ t') {w : List LogEntry} :
    windowInv t w → windowInv t' w :=
  fun hw => ⟨hw.1, hw.2.1, fun x hx => le_trans (hw.2.2 x hx) h⟩

/-- The timestamps of a window extended by a tick at time `now`. -/
theorem filterMap_append_entry (r2 : ℚ) (now : ℕ) (tasks : List String)
    (w : List LogEntry) :
    (w ++ [logEntryOf r2 now tasks]).filterMap LogEntry.ts
      = w.filterMap LogEntry.ts ++ [now] := by
  rw [List.filterMap_append]
  simp [logEntryOf]

/-- One log tick at time `now` preserves the window invariant at `now`. -/
theorem logTick_windowInv (r1 r2 : ℚ) (now : ℕ) (tasks : List String)
    (w : List LogEntry) (h : windowInv now w) :
    windowInv now (logTick r1 r2 now tasks w) := by
  obtain ⟨hlen, hsort, hbnd⟩ := h
  unfold logTick
  by_cases hr : r1 > 7 / 10
  · rw [if_pos hr]
    exact ⟨hlen, hsort, hbnd⟩
  · rw [if_neg hr]
    have hsort2 : tsSorted (w ++ [logEntryOf r2 now tasks]) := by
      unfold tsSorted
      rw [filterMap_append_entry, List.pairwise_append]
      refine ⟨hsort, List.pairwise_singleton _ _, ?_⟩
      intro a ha b hb
      rw [List.mem_singleton] at hb
      exact le_trans (hbnd a ha) (le_of_eq hb.symm)
    have hbnd2 : ∀ t ∈ (w ++ [logEntryOf r2 now tasks]).filterMap LogEntry.ts,
        t ≤ now := by
      rw [filterMap_append_entry]
      intro t ht
      rcases List.mem_append.mp ht with h | h
      · exact hbnd t h
      · rw [List.mem_singleton] at h
        exact le_of_eq h
    show windowInv now
      (if (w ++ [logEntryOf r2 now tasks]).length > 5
       then (w ++ [logEntryOf r2 now tasks]).drop
         ((w ++ [logEntryOf r2 now tasks]).length - 5)
       else w ++ [logEntryOf r2 now tasks])
    by_cases hl : (w ++ [logEntryOf r2 now tasks]).length > 5
    · rw [if_pos hl]
      have hsub := List.drop_sublist
        ((w ++ [logEntryOf r2 now tasks]).length - 5) (w ++ [logEntryOf r2 now tasks])
      refine ⟨?_, ?_, ?_⟩
      · rw [List.length_drop]
        omega
      · exact List.Pairwise.sublist (hsub.filterMap _) hsort2
      · intro t ht
        exact hbnd2 t ((hsub.filterMap _).subset ht)
    · rw [if_neg hl]
      exact ⟨by omega, hsort2, hbnd2⟩

/-- Folding tick inputs with non-decreasing times from an invariant window
keeps the window within 5 entries and its timestamps sorted. -/
theorem foldTicks_inv (tasks : List String) :
    ∀ (ticksIn : List (ℚ × ℚ × ℕ)) (t0 : ℕ) (w : List LogEntry),
      windowInv t0 w →
      List.Chain' (fun a b => a ≤ b) (t0 :: ticksIn.map (fun x => x.2.2)) →
      (foldTicks tasks ticksIn w).length ≤ 5 ∧ tsSorted (foldTicks tasks ticksIn w) := by
  intro ticksIn
  induction ticksIn with
  | nil =>
    intro t0 w hw _
    exact ⟨hw.1, hw.2.1⟩
  | cons x rest ih =>
    intro t0 w hw hchain
    rw [List.map_cons] at hchain
    obtain ⟨h1, h2⟩ := List.chain'_cons.mp hchain
    have hw3 : windowInv x.2.2 (logTick x.1 x.2.1 x.2.2 tasks w) :=
      logTick_windowInv _ _ _ _ _ (windowInv_mono h1 hw)
    exact ih x.2.2 _ hw3 h2

/-- C6: for every sequence of tick inputs with non-decreasing times, after
every operation the window has between 0 and 5 entries with timestamps in
non-decreasing order; and an appending tick on a full window evicts the
front entry so that exactly 5 remain. -/
theorem log_window_invariant (tasks : List String) (modulePfx : String)
    (ticksIn : List (ℚ × ℚ × ℕ))
    (hchain : List.Chain' (fun a b => a ≤ b) (ticksIn.map (fun x => x.2.2))) :
    (∀ n, (runLogs tasks modulePfx (ticksIn.take n)).length ≤ 5 ∧
      tsSorted (runLogs tasks modulePfx (ticksIn.take n))) ∧
    (∀ (r1 r2 : ℚ) (t : ℕ) (w : List LogEntry), w.length = 5 → ¬ r1 > 7 / 10 →
      logTick r1 r2 t tasks w = w.drop 1 ++ [logEntryOf r2 t tasks] ∧
      (logTick r1 r2 t tasks w).length = 5) := by
  constructor
  · intro n
    apply foldTicks_inv tasks (ticksIn.take n) 0
    · refine ⟨by simp [initLogs], ?_, ?_⟩
      · unfold tsSorted initLogs
        simp
      · intro t ht
        simp [initLogs] at ht
    · rw [List.map_take]
      exact List.chain'_cons'.mpr ⟨fun y _ => Nat.zero_le y, hchain.take n⟩
  · intro r1 r2 t w hw5 hr
    have hlen : (w ++ [logEntryOf r2 t tasks]).length = 6 := by
      simp [hw5]
    have heq : logTick r1 r2 t tasks w = w.drop 1 ++ [logEntryOf r2 t tasks] := by
      unfold logTick
      rw [if_neg hr]
      show (if (w ++ [logEntryOf r2 t tasks]).length > 5
            then (w ++ [logEntryOf r2 t tasks]).drop
              ((w ++ [logEntryOf r2 t tasks]).length - 5)
            else w ++ [logEntryOf r2 t tasks]) = _
      rw [if_pos (by omega), hlen]
      show (w ++ [logEntryOf r2 t tasks]).drop 1 = _
      exact List.drop_append_of_le_length (by omega)
    refine ⟨heq, ?_⟩
    rw [heq]
    simp [hw5]

/-- Witness for the log-window invariant on a concrete run of 7 appending
ticks with increasing times. -/
theorem log_window_invariant_witness :
    (runLogs articleTasks "web"
      (([(0, 0, 1), (0, 0, 2), (0, 0, 3), (0, 0, 4), (0, 0, 5), (0, 0, 6),
         (0, 0, 7)] : List (ℚ × ℚ × ℕ)).take 7)).length ≤ 5 ∧
    tsSorted (runLogs articleTasks "web"
      (([(0, 0, 1), (0, 0, 2), (0, 0, 3), (0, 0, 4), (0, 0, 5), (0, 0, 6),
         (0, 0, 7)] : List (ℚ × ℚ × ℕ)).take 7)) :=
  (log_window_invariant articleTasks "web"
    ([(0, 0, 1), (0, 0, 2), (0, 0, 3), (0, 0, 4), (0, 0, 5), (0, 0, 6),
      (0, 0, 7)] : List (ℚ × ℚ × ℕ))
    (by simp [List.chain'_cons, List.chain'_singleton])).1 7

/-- C5 counterexample: a tick whose first sample is 0.35 — inside the
region the claim assigns to "do nothing" with probability ≈0.7 — appends
an entry; the set of samples in [0,1) for which the tick does nothing is
exactly the interval (0.7, 1), whose fraction of the unit interval is
1 − 0.7 = 0.3, not ≈0.7. -/
theorem log_tick_noop_region :
    logTick (7 / 20) 0 0 articleTasks [] ≠ [] ∧
    {r : ℚ | logTick r 0 0 articleTasks [] = []} ∩ Set.Ico (0 : ℚ) 1
      = Set.Ioo (7 / 10 : ℚ) 1 ∧
    (1 : ℚ) - 7 / 10 = 3 / 10 := by
  refine ⟨?_, ?_, by norm_num⟩
  · rw [logTick, if_neg (by norm_num)]
    simp
  ext r
  simp only [Set.mem_inter_iff, Set.mem_setOf_eq, Set.mem_Ico, Set.mem_Ioo]
  by_cases h : r > 7 / 10
  · rw [logTick, if_pos h]
    constructor
    · rintro ⟨_, _, h1⟩
      exact ⟨h, h1⟩
    · rintro ⟨_, h1⟩
      exact ⟨rfl, by linarith, h1⟩
  · rw [logTick, if_neg h]
    constructor
    · rintro ⟨habs, _⟩
      simp at habs
    · rintro ⟨h7, _⟩
      exact absurd h7 h

/-- C5 amended: on every tick, when the first uniform sample exceeds 0.7
(an event of probability ≈0.3) the window is unchanged; otherwise
(probability ≈0.7) the line selected from the fixed pool by the second
uniform sample is stamped with the current time and appended at the end
(the window then being trimmed to its last 5 entries); and for a second
sample in [0,1) on a non-empty pool, the selected index lies within the
pool. -/
theorem log_tick_behavior (tasks : List String) (r1 r2 : ℚ) (now : ℕ)
    (w : List LogEntry) :
    ((7 : ℚ) / 10 < r1 → logTick r1 r2 now tasks w = w) ∧
    (¬ (7 : ℚ) / 10 < r1 →
      logTick r1 r2 now tasks w =
        (if (w ++ [logEntryOf r2 now tasks]).length > 5
         then (w ++ [logEntryOf r2 now tasks]).drop
           ((w ++ [logEntryOf r2 now tasks]).length - 5)
         else w ++ [logEntryOf r2 now tasks])) ∧
    (0 ≤ r2 → r2 < 1 → tasks ≠ [] →
      Int.toNat (Int.floor (r2 * (tasks.length : ℚ))) < tasks.length) := by
  refine ⟨?_, ?_, ?_⟩
  · intro h
    rw [logTick, if_pos h]
  · intro h
    rw [logTick, if_neg h]
  · intro h0 h1 hne
    have hlen : 0 < tasks.length := List.length_pos.mpr hne
    have hlenQ : (0 : ℚ) < (tasks.length : ℚ) := by exact_mod_cast hlen
    have hmul : r2 * (tasks.length : ℚ) < (tasks.length : ℚ) := by nlinarith
    have hfl : Int.floor (r2 * (tasks.length : ℚ)) < (tasks.length : ℤ) := by
      rw [Int.floor_lt]
      exact_mod_cast hmul
    omega

/-- Witness for the amended log-tick behavior: sample 0.9 skips, sample
0.5 appends the selected pool line, and the index chosen by sample 0.5 on
the 9-line article pool is in range. -/
theorem log_tick_behavior_witness :
    logTick (9 / 10) 0 3 articleTasks [] = [] ∧
    logTick (1 / 2) (1 / 2) 3 articleTasks [] = [logEntryOf (1 / 2) 3 articleTasks] ∧
    Int.toNat (Int.floor ((1 / 2 : ℚ) * (articleTasks.length : ℚ))) < articleTasks.length := by
  refine ⟨?_, ?_, ?_⟩
  · exact (log_tick_behavior articleTasks (9 / 10) 0 3 []).1 (by norm_num)
  · rw [(log_tick_behavior articleTasks (1 / 2) (1 / 2) 3 []).2.1 (by norm_num)]
    simp
  · exact (log_tick_behavior articleTasks (1 / 2) (1 / 2) 3 []).2.2
      (by norm_num) (by norm_num) (by decide)

/-- C7: after appending an item, a failing storage write leaves the item
at the head of the in-memory list, the list itself untouched (no rollback
or truncation), the stored value unchanged, and lets no exception escape
to the caller. -/
theorem append_persist_failure_safe (item : ArticleHistoryItem)
    (hist : List ArticleHistoryItem) (st : StorageState)
    (ser : List ArticleHistoryItem → String) :
    (handleAddArticleHistory item hist).head? = some item ∧
    handleAddArticleHistory item hist = item :: hist ∧
    (persistArticleHistory WriteOutcome.quotaExceeded st ser
      (handleAddArticleHistory item hist)).2 = false ∧
    (persistArticleHistory WriteOutcome.quotaExceeded st ser
      (handleAddArticleHistory item hist)).1 = st := by
  refine ⟨rfl, rfl, ?_, ?_⟩ <;>
    simp [persistArticleHistory, setItemResult]

/-- C8: for every storage read outcome and every parse function, loading
the history never propagates a failure (the escape flag is false), and the
result is either the empty list or the successfully parsed list with each
record's date revived. -/
theorem load_history_total (read : Except String (Option String))
    (parse : String → Except String (List RawArticleItem))
    (newDate : String → ℤ) :
    (loadHistory read parse newDate).2 = false ∧
    ((loadHistory read parse newDate).1 = [] ∨
      ∃ saved raw, read = .ok (some saved) ∧ parse saved = .ok raw ∧
        (loadHistory read parse newDate).1 = raw.map (reviveItem newDate)) := by
  match read with
  | .error e => exact ⟨rfl, Or.inl rfl⟩
  | .ok none => exact ⟨rfl, Or.inl rfl⟩
  | .ok (some saved) =>
    by_cases hs : saved = ""
    · refine ⟨?_, Or.inl ?_⟩ <;> simp [loadHistory, hs]
    · match hp : parse saved with
      | .error e =>
        refine ⟨?_, Or.inl ?_⟩ <;> simp [loadHistory, hs, hp]
      | .ok raw =>
        refine ⟨?_, Or.inr ⟨saved, raw, rfl, hp, ?_⟩⟩ <;> simp [loadHistory, hs, hp]

/-- C9: a key event carrying exactly Alt plus a digit in the shortcut
table transitions the view to the mapped view and consumes the event when
the gate is unlocked and no intro overlay shows; the identical event while
the gate is locked, or while the overlay shows, leaves the view unchanged
and unconsumed; and any event with an additional modifier held never
causes a transition. -/
theorem shortcut_dispatch (e : KeyEvent) (v tv : ViewMode)
    (hmap : shortcutTable e.key = some tv)
    (halt : e.altKey = true) (hc : e.ctrlKey = false) (hm : e.metaKey = false)
    (hs : e.shiftKey = false) :
    handleKeyDown true false v e = (tv, true) ∧
    (∀ showIntro, handleKeyDown false showIntro v e = (v, false)) ∧
    (∀ hasApiKey, handleKeyDown hasApiKey true v e = (v, false)) ∧
    (∀ (hasApiKey showIntro : Bool) (e' : KeyEvent), e'.altKey = true →
      (e'.ctrlKey = true ∨ e'.metaKey = true ∨ e'.shiftKey = true) →
      handleKeyDown hasApiKey showIntro v e' = (v, false)) := by
  refine ⟨?_, ?_, ?_, ?_⟩
  · unfold shortcutTable at hmap
    unfold handleKeyDown
    by_cases k1 : e.key = "1"
    · rw [if_pos k1] at hmap
      simp [halt, hc, hm, hs, k1, ← Option.some_inj.mp hmap]
    · rw [if_neg k1] at hmap
      by_cases k2 : e.key = "2"
      · rw [if_pos k2] at hmap
        simp [halt, hc, hm, hs, k1, k2, ← Option.some_inj.mp hmap]
      · rw [if_neg k2] at hmap
        by_cases k3 : e.key = "3"
        · rw [if_pos k3] at hmap
          simp [halt, hc, hm, hs, k1, k2, k3, ← Option.some_inj.mp hmap]
        · rw [if_neg k3] at hmap
          exact absurd hmap (by simp)
  · intro showIntro
    unfold handleKeyDown
    simp
  · intro hasApiKey
    unfold handleKeyDown
    simp
  · intro hasApiKey showIntro e2 halt2 hmod
    unfold handleKeyDown
    by_cases hgate : (!hasApiKey || showIntro) = true
    · rw [if_pos hgate]
    · rw [if_neg hgate]
      rcases hmod with h | h | h <;> simp [h]

/-- Witness for the shortcut dispatcher at Alt+2: the view transitions to
the repo analyzer when unlocked and stays on Home when locked. -/
theorem shortcut_dispatch_witness :
    handleKeyDown true false ViewMode.HOME ⟨true, false, false, false, "2"⟩
      = (ViewMode.REPO_ANALYZER, true) ∧
    handleKeyDown false false ViewMode.HOME ⟨true, false, false, false, "2"⟩
      = (ViewMode.HOME, false) :=
  ⟨(shortcut_dispatch ⟨true, false, false, false, "2"⟩ ViewMode.HOME
      ViewMode.REPO_ANALYZER rfl rfl rfl rfl rfl).1,
   (shortcut_dispatch ⟨true, false, false, false, "2"⟩ ViewMode.HOME
      ViewMode.REPO_ANALYZER rfl rfl rfl rfl rfl).2.1 false⟩

/-- C10: with a valid URL, a service call that resolves with a missing or
empty image list is treated as a failure — the inline error is set, no
images or citations are displayed, and the history is unchanged; and
whenever the history changes, the service must have returned at least one
image. -/
theorem generate_empty_images_failure (s : GenUiState)
    (hist : List ArticleHistoryItem) (urlInput : String) (payload : GenPayload)
    (hostnameOf : String → Option String) (idStr : String) (now : ℤ)
    (hurl : ¬ trimStr urlInput = "")
    (hempty : payload.images = none ∨ payload.images = some []) :
    ((handleGenerate s hist urlInput (.ok payload) hostnameOf idStr now).1.error
        = some "Failed to generate infographic image. The URL might be inaccessible." ∧
      (handleGenerate s hist urlInput (.ok payload) hostnameOf idStr now).1.images = [] ∧
      (handleGenerate s hist urlInput (.ok payload) hostnameOf idStr now).1.citations = [] ∧
      (handleGenerate s hist urlInput (.ok payload) hostnameOf idStr now).2 = hist) ∧
    (∀ (result : Except String GenPayload),
      (handleGenerate s hist urlInput result hostnameOf idStr now).2 ≠ hist →
      ∃ p imgs, result = Except.ok p ∧ p.images = some imgs ∧ imgs ≠ []) := by
  constructor
  · rcases hempty with h | h <;>
      simp [handleGenerate, hurl, h]
  · intro result hne
    match result with
    | .error msg =>
      exact absurd (by simp [handleGenerate, hurl]) hne
    | .ok p =>
      match hp : p.images with
      | none =>
        exact absurd (by simp [handleGenerate, hurl, hp]) hne
      | some imgs =>
        match imgs with
        | [] =>
          exact absurd (by simp [handleGenerate, hurl, hp]) hne
        | i :: rest =>
          exact ⟨p, i :: rest, rfl, hp, by simp⟩

/-- Witness for the generation handler: a successful service result with
an empty image list sets the error and leaves the one-element history
unchanged. -/
theorem generate_empty_images_failure_witness :
    ((handleGenerate ⟨false, [], [], none, ""⟩ [] "https://a.example"
        (.ok ⟨some [], []⟩) (fun _ => none) "1" 0).1.error
      = some "Failed to generate infographic image. The URL might be inaccessible.") ∧
    ((handleGenerate ⟨false, [], [], none, ""⟩ [] "https://a.example"
        (.ok ⟨some [], []⟩) (fun _ => none) "1" 0).2 = []) :=
  ⟨(generate_empty_images_failure ⟨false, [], [], none, ""⟩ [] "https://a.example"
      ⟨some [], []⟩ (fun _ => none) "1" 0 (by decide) (Or.inr rfl)).1.1,
   (generate_empty_images_failure ⟨false, [], [], none, ""⟩ [] "https://a.example"
      ⟨some [], []⟩ (fun _ => none) "1" 0 (by decide) (Or.inr rfl)).1.2.2.2⟩

end Link2Ink
